/-
Verification of the scan-ingestion core (scanner.rs / routes/scanner.rs).

The development shallowly embeds the Rust code:
* `Json` models `serde_json::Value` (numbers as `Int`; no claim involves
  floating point values).  `serde_json` object maps have unique keys and
  `get` returns the value bound to a key; objects are modelled as
  association lists and `lookupField` (first match) embeds `Map::get`.
* The filesystem slot backing one scope file of one target is modelled by
  `FileState`: the file can be absent, unreadable (`fs::read_to_string`
  fails), hold well-formed JSON, or hold content that fails to parse.
* Stateful route handlers become pure functions from the relevant state
  (session map, file states, a clock value, an IO-write disposition) to
  the response plus the successor state.
-/
import Mathlib

set_option maxHeartbeats 1000000

/-- Model of `serde_json::Value`.  Object fields keep insertion order;
`serde_json` maps have unique keys, which the operations below respect. -/
inductive Json where
  | null : Json
  | bool (b : Bool) : Json
  | num (n : Int) : Json
  | str (s : String) : Json
  | arr (items : List Json) : Json
  | obj (fields : List (String × Json)) : Json

/-- `serde_json::Map::get`: the value bound to key `k` (keys are unique). -/
def lookupField (fields : List (String × Json)) (k : String) : Option Json :=
  match fields with
  | [] => none
  | (k', v) :: rest => if k' = k then some v else lookupField rest k

/-- `Value::get(k)`: `None` on non-objects. -/
def jGet (j : Json) (k : String) : Option Json :=
  match j with
  | .obj fields => lookupField fields k
  | _ => none

/-- `Value::as_str()`. -/
def asStr (j : Json) : Option String :=
  match j with
  | .str s => some s
  | _ => none

/-- `Value::as_bool()`. -/
def asBool (j : Json) : Option Bool :=
  match j with
  | .bool b => some b
  | _ => none

/-- `v.get(k).and_then(|v| v.as_str()).unwrap_or("")`. -/
def strOrEmpty (j : Json) (k : String) : String :=
  ((jGet j k).bind asStr).getD ""

/-- Key present in a JSON object (false on non-objects). -/
def hasField (j : Json) (k : String) : Bool :=
  match j with
  | .obj fields => fields.any (fun p => p.1 = k)
  | _ => false

-- ── File-state model ─────────────────────────────────────────────────────

/-- State of one stored scope file.  `stored j` is a file whose content is
the serialization of `j` (serde round-trips); `corrupt` is a file whose
content does not parse as JSON; `unreadable` is a file for which
`fs::read_to_string` fails. -/
inductive FileState where
  | absent : FileState
  | unreadable : FileState
  | corrupt : FileState
  | stored (j : Json) : FileState

/-- `save_chunk` (scanner.rs:141-147): overwrite the file with the payload.
Directory creation and `fs::write` are modelled as succeeding; the prior
file state is irrelevant, exactly as in the code. -/
def save_chunk (_fs : FileState) (data : Json) : Except String FileState :=
  .ok (.stored data)

/-- The parse step of `append_to_array` (scanner.rs:154-159):
`serde_json::from_str::<Vec<Value>>(&content).unwrap_or_default()` —
content that is not a JSON array yields the empty vector. -/
def parseVecOrDefault (j : Json) : List Json :=
  match j with
  | .arr xs => xs
  | _ => []

/-- The extend-or-push-then-rewrite step of `append_to_array`
(scanner.rs:161-167): concatenate an array payload element-wise, push
anything else as a single element, write the whole array back. -/
def appendWrite (existing : List Json) (items : Json) : Except String FileState :=
  match items with
  | .arr a => .ok (.stored (.arr (existing ++ a)))
  | v => .ok (.stored (.arr (existing ++ [v])))

/-- `append_to_array` (scanner.rs:149-168): read the existing file if
present (read failure propagates as an error via `?`; parse failure is
treated as an empty array via `unwrap_or_default`), then extend and
rewrite. -/
def append_to_array (fs : FileState) (items : Json) : Except String FileState :=
  match fs with
  | .unreadable => .error "Failed to read scope file"
  | .absent => appendWrite [] items
  | .corrupt => appendWrite [] items
  | .stored j => appendWrite (parseVecOrDefault j) items

/-- `load_file` (scanner.rs:170-177): error when absent, unreadable or
unparseable; otherwise the parsed value. -/
def load_file (fs : FileState) : Except String Json :=
  match fs with
  | .absent => .error "not found"
  | .unreadable => .error "Failed to read"
  | .corrupt => .error "Failed to parse"
  | .stored j => .ok j

-- ── SHA-256 (the `sha2` crate's `Sha256`, over a byte stream) ────────────

/-- 32-bit truncation. -/
def mask32 (x : Nat) : Nat := x % 4294967296

/-- Right rotation of a 32-bit word. -/
def rotr32 (n x : Nat) : Nat := mask32 ((x >>> n) ||| (x <<< (32 - n)))

def bigSigma0 (x : Nat) : Nat := (rotr32 2 x) ^^^ (rotr32 13 x) ^^^ (rotr32 22 x)
def bigSigma1 (x : Nat) : Nat := (rotr32 6 x) ^^^ (rotr32 11 x) ^^^ (rotr32 25 x)
def smallSigma0 (x : Nat) : Nat := (rotr32 7 x) ^^^ (rotr32 18 x) ^^^ (x >>> 3)
def smallSigma1 (x : Nat) : Nat := (rotr32 17 x) ^^^ (rotr32 19 x) ^^^ (x >>> 10)
def shaCh (x y z : Nat) : Nat := (x &&& y) ^^^ ((x ^^^ 4294967295) &&& z)
def shaMaj (x y z : Nat) : Nat := (x &&& y) ^^^ (x &&& z) ^^^ (y &&& z)

def shaK : List Nat :=
  [1116352408, 1899447441, 3049323471, 3921009573, 961987163, 1508970993,
   2453635748, 2870763221, 3624381080, 310598401, 607225278, 1426881987,
   1925078388, 2162078206, 2614888103, 3248222580, 3835390401, 4022224774,
   264347078, 604807628, 770255983, 1249150122, 1555081692, 1996064986,
   2554220882, 2821834349, 2952996808, 3210313671, 3336571891, 3584528711,
   113926993, 338241895, 666307205, 773529912, 1294757372, 1396182291,
   1695183700, 1986661051, 2177026350, 2456956037, 2730485921, 2820302411,
   3259730800, 3345764771, 3516065817, 3600352804, 4094571909, 275423344,
   430227734, 506948616, 659060556, 883997877, 958139571, 1322822218,
   1537002063, 1747873779, 1955562222, 2024104815, 2227730452, 2361852424,
   2428436474, 2756734187, 3204031479, 3329325298]

def shaH0 : List Nat :=
  [1779033703, 3144134277, 1013904242, 2773480762,
   1359893119, 2600822924, 528734635, 1541459225]

/-- SHA-256 padding: append 0x80, zero bytes up to 56 mod 64, then the
bit length as 8 big-endian bytes. -/
def shaPad (msg : List Nat) : List Nat :=
  let len := msg.length
  let zeros := (119 - len % 64) % 64
  let bitLen := len * 8
  msg ++ [0x80] ++ List.replicate zeros 0 ++
    (List.range 8).map (fun i => (bitLen >>> ((7 - i) * 8)) % 256)

/-- Big-endian 32-bit words from groups of four bytes. -/
def bytesToWords : List Nat → List Nat
  | b0 :: b1 :: b2 :: b3 :: rest => (((b0 * 256 + b1) * 256 + b2) * 256 + b3) :: bytesToWords rest
  | _ => []

/-- Extend the 16 block words to the 64-entry message schedule. -/
def shaSchedule (ws : List Nat) : List Nat :=
  (List.range 48).foldl
    (fun acc i =>
      let t := i + 16
      acc ++ [mask32 (smallSigma1 (acc.getD (t - 2) 0) + acc.getD (t - 7) 0 +
                      smallSigma0 (acc.getD (t - 15) 0) + acc.getD (t - 16) 0)])
    ws

/-- One round of the SHA-256 compression function. -/
def shaRound (st : List Nat) (k w : Nat) : List Nat :=
  match st with
  | [a, b, c, d, e, f, g, h] =>
    let t1 := mask32 (h + bigSigma1 e + shaCh e f g + k + w)
    let t2 := mask32 (bigSigma0 a + shaMaj a b c)
    [mask32 (t1 + t2), a, b, c, mask32 (d + t1), e, f, g]
  | other => other

/-- Process one 64-byte block, updating the running hash state. -/
def shaBlock (h : List Nat) (block : List Nat) : List Nat :=
  let ws := shaSchedule (bytesToWords block)
  let st := (shaK.zip ws).foldl (fun st kw => shaRound st kw.1 kw.2) h
  (h.zip st).map (fun p => mask32 (p.1 + p.2))

/-- Full digest state over a byte stream. -/
def sha256Words (msg : List Nat) : List Nat :=
  let padded := shaPad msg
  let nblocks := padded.length / 64
  (List.range nblocks).foldl (fun h i => shaBlock h ((padded.drop (64 * i)).take 64)) shaH0

def hexDigit (n : Nat) : Char :=
  if n < 10 then Char.ofNat (48 + n) else Char.ofNat (87 + n)

/-- Lowercase hex of one 32-bit word, `format!("{:08x}", w)`. -/
def wordToHex (w : Nat) : List Char :=
  (List.range 8).map (fun i => hexDigit ((w >>> ((7 - i) * 4)) % 16))

/-- `format!("{:x}", hasher.finalize())`: lowercase-hex SHA-256 digest. -/
def sha256hex (msg : List Nat) : String :=
  String.mk ((sha256Words msg).flatMap wordToHex)

/-- UTF-8 encoding of one character (`str::as_bytes` is UTF-8). -/
def utf8Char (c : Char) : List Nat :=
  let n := c.toNat
  if n < 0x80 then [n]
  else if n < 0x800 then [0xC0 + n / 64, 0x80 + n % 64]
  else if n < 0x10000 then [0xE0 + n / 4096, 0x80 + (n / 64) % 64, 0x80 + n % 64]
  else [0xF0 + n / 262144, 0x80 + (n / 4096) % 64, 0x80 + (n / 64) % 64, 0x80 + n % 64]

/-- UTF-8 bytes of a string. -/
def utf8Bytes (s : String) : List Nat := s.data.flatMap utf8Char

example : sha256hex [] = "e3b0c44298fc1c149afbf4c8996fb92427ae41e4649b934ca495991b7852b855" := by
  decide

example : sha256hex (utf8Bytes "abc") =
    "ba7816bf8f01cfea414140de5dae2223b00361a396177a9cb410ff61f20015ad" := by
  decide

-- ── Tree hash (scanner.rs:226-259) ───────────────────────────────────────

/-- `obj.get(k).and_then(|v| v.as_str()).unwrap_or("")` over an object's
field list. -/
def getStrField (fields : List (String × Json)) (k : String) : String :=
  ((lookupField fields k).bind asStr).getD ""

theorem sizeOf_lookupField {fields : List (String × Json)} {k : String} {v : Json}
    (h : lookupField fields k = some v) : sizeOf v < sizeOf fields := by
  induction fields with
  | nil => simp [lookupField] at h
  | cons p rest ih =>
    obtain ⟨k', v'⟩ := p
    by_cases hk : k' = k
    · simp [lookupField, hk] at h
      subst h
      simp
      omega
    · simp [lookupField, hk] at h
      have := ih h
      simp
      omega

/-- The record contributed by one object node: `"<class>:<name>:<path>"`
when `path` is non-empty (scanner.rs:247-252). -/
def nodeRecord (fields : List (String × Json)) : List String :=
  if getStrField fields "path" = "" then []
  else [getStrField fields "class_name" ++ ":" ++ getStrField fields "name" ++ ":" ++
        getStrField fields "path"]

mutual
/-- `collect_hash_entries` (scanner.rs:239-259): arrays are flattened,
object nodes contribute their record and then their `children` value. -/
def collect_hash_entries : Json → List String
  | .arr items => collectEntriesList items
  | .obj fields =>
    nodeRecord fields ++
      (match h : lookupField fields "children" with
       | some c =>
         have : sizeOf c < sizeOf fields := sizeOf_lookupField h
         collect_hash_entries c
       | none => [])
  | _ => []
  termination_by j => sizeOf j

/-- The `for item in arr` loop of `collect_hash_entries`. -/
def collectEntriesList : List Json → List String
  | [] => []
  | x :: xs => collect_hash_entries x ++ collectEntriesList xs
  termination_by l => sizeOf l
end

/-- The comparison used by `entries.sort()`: `String`'s `Ord`, which is
byte-lexicographic; on UTF-8 data this coincides with the code-point
lexicographic order of Lean's `String` order. -/
def strLe (a b : String) : Bool := a ≤ b

/-- `compute_tree_hash` (scanner.rs:226-237): collect the records, sort,
feed each record followed by a newline byte into SHA-256, print as
lowercase hex. -/
def compute_tree_hash (tree : Json) : String :=
  let entries := collect_hash_entries tree
  let sorted := entries.mergeSort strLe
  sha256hex (sorted.flatMap (fun e => utf8Bytes e ++ [10]))

mutual
/-- Spec-side view: the object nodes of a tree value, found by traversing
array elements and each object node's `children` field. -/
def objectNodes : Json → List (List (String × Json))
  | .arr items => objectNodesList items
  | .obj fields =>
    fields ::
      (match h : lookupField fields "children" with
       | some c =>
         have : sizeOf c < sizeOf fields := sizeOf_lookupField h
         objectNodes c
       | none => [])
  | _ => []
  termination_by j => sizeOf j

def objectNodesList : List Json → List (List (String × Json))
  | [] => []
  | x :: xs => objectNodes x ++ objectNodesList xs
  termination_by l => sizeOf l
end

/-- Modelled from the spec sentence of C1: one record
`"<class_name>:<name>:<path>"` is collected for every object node whose
path is non-empty, the records are sorted lexicographically, and each
sorted record followed by a newline is fed into the SHA-256 digest,
printed as lowercase hex. -/
def specRecordOf (fields : List (String × Json)) : Option String :=
  if getStrField fields "path" = "" then none
  else some (getStrField fields "class_name" ++ ":" ++ getStrField fields "name" ++ ":" ++
             getStrField fields "path")

/-- The hash as the spec of C1 words it: filter the object nodes down to
their records, sort, digest with a newline after each record. -/
def spec_tree_hash (t : Json) : String :=
  let records := (objectNodes t).filterMap specRecordOf
  sha256hex ((records.mergeSort strLe).flatMap (fun e => utf8Bytes e ++ [10]))

-- ── Permutations of a tree value (claim C1) ──────────────────────────────

/-- `TreePerm t t'`: `t'` is `t` with the order of top-level nodes and of
any node's children (more generally: of any array) permuted.  Scalars are
unchanged; objects keep their keys and key order, with related values. -/
inductive TreePerm : Json → Json → Prop where
  | null : TreePerm .null .null
  | bool (b : Bool) : TreePerm (.bool b) (.bool b)
  | num (n : Int) : TreePerm (.num n) (.num n)
  | str (s : String) : TreePerm (.str s) (.str s)
  | arr {xs ys zs : List Json} :
      xs.Perm ys → List.Forall₂ TreePerm ys zs → TreePerm (.arr xs) (.arr zs)
  | obj {fs gs : List (String × Json)} :
      fs.map Prod.fst = gs.map Prod.fst →
      List.Forall₂ TreePerm (fs.map Prod.snd) (gs.map Prod.snd) →
      TreePerm (.obj fs) (.obj gs)

theorem asStr_eq_of_treePerm {v w : Json} (h : TreePerm v w) : asStr v = asStr w := by
  cases h <;> rfl

theorem lookupField_rel {fs : List (String × Json)} :
    ∀ {gs : List (String × Json)},
      fs.map Prod.fst = gs.map Prod.fst →
      List.Forall₂ TreePerm (fs.map Prod.snd) (gs.map Prod.snd) →
      ∀ k, (lookupField fs k = none ∧ lookupField gs k = none) ∨
        ∃ v w, lookupField fs k = some v ∧ lookupField gs k = some w ∧ TreePerm v w := by
  induction fs with
  | nil =>
    intro gs hk _ k
    cases gs with
    | nil => exact Or.inl ⟨rfl, rfl⟩
    | cons q gs => simp at hk
  | cons p fs ih =>
    intro gs hk hv k
    cases gs with
    | nil => simp at hk
    | cons q gs =>
      obtain ⟨k1, v1⟩ := p
      obtain ⟨k2, v2⟩ := q
      simp only [List.map_cons, List.cons.injEq] at hk
      obtain ⟨hk12, hkrest⟩ := hk
      simp only [List.map_cons] at hv
      cases hv with
      | cons h1 h2 =>
        by_cases hkk : k1 = k
        · subst hk12
          right
          exact ⟨v1, v2, by simp [lookupField, hkk], by simp [lookupField, hkk], h1⟩
        · subst hk12
          simpa [lookupField, hkk] using ih hkrest h2 k

theorem getStrField_eq {fs gs : List (String × Json)}
    (hk : fs.map Prod.fst = gs.map Prod.fst)
    (hv : List.Forall₂ TreePerm (fs.map Prod.snd) (gs.map Prod.snd))
    (k : String) : getStrField fs k = getStrField gs k := by
  rcases lookupField_rel hk hv k with ⟨h1, h2⟩ | ⟨v, w, h1, h2, hvw⟩
  · simp [getStrField, h1, h2]
  · simp [getStrField, h1, h2, asStr_eq_of_treePerm hvw]

theorem collect_obj (fields : List (String × Json)) :
    collect_hash_entries (.obj fields) =
      nodeRecord fields ++ (lookupField fields "children").elim [] collect_hash_entries := by
  simp only [collect_hash_entries]
  congr 1
  split <;> rename_i heq <;> rw [heq] <;> rfl

theorem nodeRecord_eq_of {fs gs : List (String × Json)}
    (hk : fs.map Prod.fst = gs.map Prod.fst)
    (hv : List.Forall₂ TreePerm (fs.map Prod.snd) (gs.map Prod.snd)) :
    nodeRecord fs = nodeRecord gs := by
  simp [nodeRecord, getStrField_eq hk hv]

theorem collectEntriesList_eq_flatMap (l : List Json) :
    collectEntriesList l = l.flatMap collect_hash_entries := by
  induction l with
  | nil => simp [collectEntriesList]
  | cons x xs ih => simp [collectEntriesList, ih]

theorem flatMap_perm_of_forall₂ {ys zs : List Json}
    (h : List.Forall₂ TreePerm ys zs)
    (hrec : ∀ y z, y ∈ ys → TreePerm y z →
      (collect_hash_entries y).Perm (collect_hash_entries z)) :
    (ys.flatMap collect_hash_entries).Perm (zs.flatMap collect_hash_entries) := by
  induction h with
  | nil => simp
  | @cons y z ys' zs' h1 _ ih =>
    simp only [List.flatMap_cons]
    exact (hrec y z (by simp) h1).append
      (ih (fun y' z' hy' h' => hrec y' z' (by simp [hy']) h'))

theorem collect_perm_aux : ∀ (n : Nat) (t t' : Json), sizeOf t ≤ n → TreePerm t t' →
    (collect_hash_entries t).Perm (collect_hash_entries t') := by
  intro n
  induction n with
  | zero =>
    intro t t' ht _
    exfalso
    cases t <;> simp at ht
  | succ n ih =>
    intro t t' hsize hperm
    cases hperm with
    | null => exact List.Perm.refl _
    | bool b => exact List.Perm.refl _
    | num m => exact List.Perm.refl _
    | str s => exact List.Perm.refl _
    | arr hxy hyz =>
      rename_i xs ys zs
      simp only [collect_hash_entries]
      rw [collectEntriesList_eq_flatMap, collectEntriesList_eq_flatMap]
      refine (hxy.flatMap_right collect_hash_entries).trans ?_
      apply flatMap_perm_of_forall₂ hyz
      intro y z hy hperm'
      apply ih y z _ hperm'
      have hmem : y ∈ xs := hxy.mem_iff.mpr hy
      have h1 := List.sizeOf_lt_of_mem hmem
      have h2 : sizeOf (Json.arr xs) = 1 + sizeOf xs := by simp
      omega
    | obj hkeys hvals =>
      rename_i fs gs
      rcases lookupField_rel hkeys hvals "children" with ⟨h1, h2⟩ | ⟨c, c', h1, h2, hcc⟩
      · rw [collect_obj, collect_obj, h1, h2, nodeRecord_eq_of hkeys hvals]
      · rw [collect_obj, collect_obj, h1, h2, nodeRecord_eq_of hkeys hvals]
        apply List.Perm.append_left
        apply ih c c' _ hcc
        have hc := sizeOf_lookupField h1
        have h3 : sizeOf (Json.obj fs) = 1 + sizeOf fs := by simp
        omega

theorem collect_perm_of_treePerm {t t' : Json} (h : TreePerm t t') :
    (collect_hash_entries t).Perm (collect_hash_entries t') :=
  collect_perm_aux (sizeOf t) t t' (Nat.le_refl _) h

theorem strLe_trans : ∀ (a b c : String), strLe a b → strLe b c → strLe a c := by
  intro a b c hab hbc
  simp only [strLe, decide_eq_true_eq] at *
  exact le_trans hab hbc

theorem strLe_total : ∀ (a b : String), strLe a b || strLe b a := by
  intro a b
  simp only [strLe, Bool.or_eq_true, decide_eq_true_eq]
  exact le_total a b

instance : IsAntisymm String (fun a b => strLe a b = true) := by
  constructor
  intro a b h1 h2
  simp only [strLe, decide_eq_true_eq] at h1 h2
  exact le_antisymm h1 h2

theorem mergeSort_congr_of_perm {l₁ l₂ : List String} (h : l₁.Perm l₂) :
    l₁.mergeSort strLe = l₂.mergeSort strLe := by
  have hs₁ := List.sorted_mergeSort strLe_trans strLe_total l₁
  have hs₂ := List.sorted_mergeSort strLe_trans strLe_total l₂
  have hp := (List.mergeSort_perm l₁ strLe).trans (h.trans (List.mergeSort_perm l₂ strLe).symm)
  exact List.eq_of_perm_of_sorted hp hs₁ hs₂

theorem objectNodes_obj (fields : List (String × Json)) :
    objectNodes (.obj fields) =
      fields :: (lookupField fields "children").elim [] objectNodes := by
  simp only [objectNodes]
  congr 1
  split <;> rename_i heq <;> rw [heq] <;> rfl

theorem objectNodesList_eq_flatMap (l : List Json) :
    objectNodesList l = l.flatMap objectNodes := by
  induction l with
  | nil => simp [objectNodesList]
  | cons x xs ih => simp [objectNodesList, ih]

theorem nodeRecord_eq_toList (fields : List (String × Json)) :
    nodeRecord fields = (specRecordOf fields).toList := by
  by_cases h : getStrField fields "path" = "" <;> simp [nodeRecord, specRecordOf, h]

theorem collect_eq_specRecords_aux : ∀ (n : Nat) (t : Json), sizeOf t ≤ n →
    collect_hash_entries t = (objectNodes t).filterMap specRecordOf := by
  intro n
  induction n with
  | zero =>
    intro t ht
    exfalso
    cases t <;> simp at ht
  | succ n ih =>
    intro t hsize
    cases t with
    | null => simp [collect_hash_entries, objectNodes]
    | bool b => simp [collect_hash_entries, objectNodes]
    | num m => simp [collect_hash_entries, objectNodes]
    | str s => simp [collect_hash_entries, objectNodes]
    | arr items =>
      simp only [collect_hash_entries, objectNodes]
      rw [collectEntriesList_eq_flatMap, objectNodesList_eq_flatMap,
          List.filterMap_flatMap]
      apply List.flatMap_congr
      intro x hx
      apply ih
      have h1 := List.sizeOf_lt_of_mem hx
      have h2 : sizeOf (Json.arr items) = 1 + sizeOf items := by simp
      omega
    | obj fields =>
      rw [collect_obj, objectNodes_obj, List.filterMap_cons, nodeRecord_eq_toList]
      cases hc : lookupField fields "children" with
      | none => cases hr : specRecordOf fields <;> simp [Option.elim, hr]
      | some c =>
        have hrec : collect_hash_entries c = (objectNodes c).filterMap specRecordOf := by
          apply ih
          have h1 := sizeOf_lookupField hc
          have h2 : sizeOf (Json.obj fields) = 1 + sizeOf fields := by simp
          omega
        cases hr : specRecordOf fields <;> simp [Option.elim, hr, hrec]

theorem collect_eq_specRecords (t : Json) :
    collect_hash_entries t = (objectNodes t).filterMap specRecordOf :=
  collect_eq_specRecords_aux (sizeOf t) t (Nat.le_refl _)

theorem treePerm_refl_aux : ∀ (n : Nat) (t : Json), sizeOf t ≤ n → TreePerm t t := by
  intro n
  induction n with
  | zero =>
    intro t ht
    exfalso
    cases t <;> simp at ht
  | succ n ih =>
    intro t ht
    cases t with
    | null => exact .null
    | bool b => exact .bool b
    | num m => exact .num m
    | str s => exact .str s
    | arr items =>
      refine .arr (List.Perm.refl items) (List.forall₂_same.mpr ?_)
      intro x hx
      apply ih
      have h1 := List.sizeOf_lt_of_mem hx
      have h2 : sizeOf (Json.arr items) = 1 + sizeOf items := by simp
      omega
    | obj fields =>
      refine .obj rfl (List.forall₂_same.mpr ?_)
      intro v hv
      apply ih
      obtain ⟨⟨k, w⟩, hmem, rfl⟩ := List.mem_map.mp hv
      have h1 := List.sizeOf_lt_of_mem hmem
      have h2 : sizeOf (Json.obj fields) = 1 + sizeOf fields := by simp
      have h3 : sizeOf (k, w) = 1 + sizeOf k + sizeOf w := by simp
      have h4 : sizeOf (k, w).2 = sizeOf w := rfl
      omega

theorem treePerm_refl (t : Json) : TreePerm t t :=
  treePerm_refl_aux (sizeOf t) t (Nat.le_refl _)

-- ── Outline extraction (scanner.rs:295-400) ──────────────────────────────
--
-- Each Rust regex is embedded as a hand-rolled scanner with the same
-- matching semantics.  `captures_iter` semantics: try a match at every
-- position from left to right; on success continue after the match, on
-- failure advance one character.  All the character classes involved in a
-- `X*`/`X+` followed by a delimiter are disjoint from that delimiter, so
-- the greedy matches below need no backtracking.  Rust's `\s` and `\w`
-- are Unicode-aware; the ASCII-faithful approximations below agree on
-- ASCII source text.

def isQuoteChar (c : Char) : Bool := c = Char.ofNat 34 || c = Char.ofNat 39

def isSpaceChar (c : Char) : Bool := c.isWhitespace

def isWordChar (c : Char) : Bool := c.isAlphanum || c = '_'

/-- Characters of `[\w.:]` (function-name class). -/
def isFnNameChar (c : Char) : Bool := isWordChar c || c = '.' || c = ':'

/-- Match a literal character sequence, returning the rest on success. -/
def matchLit : List Char → List Char → Option (List Char)
  | [], s => some s
  | _ :: _, [] => none
  | c :: cs, d :: ds => if c = d then matchLit cs ds else none

/-- `str::trim`: drop whitespace from both ends. -/
def trimChars (l : List Char) : List Char :=
  ((l.dropWhile isSpaceChar).reverse.dropWhile isSpaceChar).reverse

/-- `str::lines`: split on newline, strip a trailing carriage return from
each line, drop a final empty segment (fuel is the input length; every
step consumes at least one character). -/
def splitLinesAux : Nat → List Char → List (List Char)
  | _, [] => []
  | 0, _ :: _ => []
  | fuel + 1, c :: rest =>
    let s := c :: rest
    let line := s.takeWhile (fun d => d ≠ '\n')
    let stripped := if line.getLast? = some (Char.ofNat 13) then line.dropLast else line
    stripped :: splitLinesAux fuel (s.drop (line.length + 1))

def splitLines (s : List Char) : List (List Char) := splitLinesAux s.length s

/-- `str::lines` together with each line's start offset, for the
line-containment test of the remote-access extraction.  Offsets count
characters where the Rust code counts bytes; both measure the same cut
points, so containment of a match position is unchanged. -/
def lineSpansAux : Nat → Nat → List Char → List (Nat × List Char)
  | _, _, [] => []
  | 0, _, _ :: _ => []
  | fuel + 1, pos, c :: rest =>
    let s := c :: rest
    let line := s.takeWhile (fun d => d ≠ '\n')
    let stripped := if line.getLast? = some (Char.ofNat 13) then line.dropLast else line
    (pos, stripped) :: lineSpansAux fuel (pos + line.length + 1) (s.drop (line.length + 1))

def lineSpans (s : List Char) : List (Nat × List Char) := lineSpansAux s.length 0 s

/-- `captures_iter` driver: at each position try the scanner; on a match
emit the capture and continue after the match (every scanner consumes at
least one character), otherwise advance one position. -/
def scanAllAux {α : Type} (att : List Char → Option (α × Nat)) : Nat → List Char → List α
  | 0, _ => []
  | _, [] => []
  | fuel + 1, c :: rest =>
    match att (c :: rest) with
    | some (a, k) => a :: scanAllAux att fuel ((c :: rest).drop (max k 1))
    | none => scanAllAux att fuel rest

def scanAll {α : Type} (att : List Char → Option (α × Nat)) (s : List Char) : List α :=
  scanAllAux att s.length s

/-- `captures_iter` driver that also reports each match's start offset. -/
def scanAllPosAux {α : Type} (att : List Char → Option (α × Nat)) :
    Nat → Nat → List Char → List (α × Nat)
  | 0, _, _ => []
  | _, _, [] => []
  | fuel + 1, pos, c :: rest =>
    match att (c :: rest) with
    | some (a, k) =>
      (a, pos) :: scanAllPosAux att fuel (pos + max k 1) ((c :: rest).drop (max k 1))
    | none => scanAllPosAux att fuel (pos + 1) rest

def scanAllPos {α : Type} (att : List Char → Option (α × Nat)) (s : List Char) :
    List (α × Nat) :=
  scanAllPosAux att s.length 0 s

/-- Core of `fn_re` without the optional `local` group:
`function\s+([\w.:]+)\s*\(([^)]*)\)`.  Captures (name, params). -/
def tryFnCore (s : List Char) : Option ((List Char × List Char) × Nat) :=
  match matchLit "function".data s with
  | none => none
  | some r1 =>
    let ws := r1.takeWhile isSpaceChar
    if ws.isEmpty then none else
    let r2 := r1.drop ws.length
    let name := r2.takeWhile isFnNameChar
    if name.isEmpty then none else
    let r3 := r2.drop name.length
    let ws2 := r3.takeWhile isSpaceChar
    match r3.drop ws2.length with
    | c :: r5 =>
      if c = '(' then
        let params := r5.takeWhile (fun d => d ≠ ')')
        match r5.drop params.length with
        | d :: _ =>
          if d = ')' then
            some ((name, params), 8 + ws.length + name.length + ws2.length + 1 + params.length + 1)
          else none
        | [] => none
      else none
    | [] => none

/-- `fn_re` (scanner.rs:299): `(?:local\s+)?function\s+([\w.:]+)\s*\(([^)]*)\)`.
The optional group backtracks to the empty alternative when the rest of
the pattern fails after `local\s+`. -/
def tryFn (s : List Char) : Option ((List Char × List Char) × Nat) :=
  match matchLit "local".data s with
  | some r1 =>
    let ws := r1.takeWhile isSpaceChar
    if ws.isEmpty then tryFnCore s
    else
      match tryFnCore (r1.drop ws.length) with
      | some (cap, k) => some (cap, 5 + ws.length + k)
      | none => tryFnCore s
  | none => tryFnCore s

/-- `require_re` (scanner.rs:300): `require\(([^)]+)\)`. -/
def tryRequire (s : List Char) : Option (List Char × Nat) :=
  match matchLit "require(".data s with
  | none => none
  | some r =>
    let arg := r.takeWhile (fun d => d ≠ ')')
    if arg.isEmpty then none
    else
      match r.drop arg.length with
      | d :: _ => if d = ')' then some (arg, 8 + arg.length + 1) else none
      | [] => none

/-- `service_re` (scanner.rs:301):
`game:GetService\(\s*["~]([^"~]+)["~]\s*\)` (with `~` standing for the
single-quote character in this comment).  Captures the service name. -/
def tryService (s : List Char) : Option (List Char × Nat) :=
  match matchLit "game:GetService(".data s with
  | none => none
  | some r =>
    let ws := r.takeWhile isSpaceChar
    match r.drop ws.length with
    | q :: r2 =>
      if isQuoteChar q then
        let run := r2.takeWhile (fun d => !isQuoteChar d)
        if run.isEmpty then none
        else
          match r2.drop run.length with
          | q2 :: r3 =>
            if isQuoteChar q2 then
              let ws2 := r3.takeWhile isSpaceChar
              match r3.drop ws2.length with
              | c :: _ =>
                if c = ')' then
                  some (run, 16 + ws.length + 1 + run.length + 1 + ws2.length + 1)
                else none
              | [] => none
            else none
          | [] => none
      else none
    | [] => none

def remoteMethods : List String :=
  ["FireServer", "InvokeServer", "OnClientEvent", "OnServerEvent", "FireClient",
   "OnClientInvoke"]

/-- The alternation of `remote_re` after the `[:.]`: try each method name
in order, each followed by `\s*\(`; on failure fall through to the next
alternative. -/
def tryRemoteMethods : List String → List Char → Option (String × Nat)
  | [], _ => none
  | m :: ms, r =>
    match matchLit m.data r with
    | some r2 =>
      let ws := r2.takeWhile isSpaceChar
      match r2.drop ws.length with
      | c :: _ =>
        if c = '(' then some (m, 1 + m.length + ws.length + 1)
        else tryRemoteMethods ms r
      | [] => tryRemoteMethods ms r
    | none => tryRemoteMethods ms r

/-- `remote_re` (scanner.rs:302):
`[:.](FireServer|InvokeServer|OnClientEvent|OnServerEvent|FireClient|OnClientInvoke)\s*\(`. -/
def tryRemote (s : List Char) : Option (String × Nat) :=
  match s with
  | c :: r => if c = ':' || c = '.' then tryRemoteMethods remoteMethods r else none
  | [] => none

def childLookupFns : List String :=
  ["FindFirstChild", "WaitForChild", "FindFirstChildOfClass", "FindFirstChildWhichIsA"]

/-- The alternation of `instance_ref_re`: each function name followed by
`\(\s*` then a quoted non-empty literal; on failure try the next
alternative. -/
def tryChildFns : List String → List Char → Option (List Char × Nat)
  | [], _ => none
  | f :: rest, s =>
    match matchLit f.data s with
    | some r =>
      match r with
      | c :: r1 =>
        if c = '(' then
          let ws := r1.takeWhile isSpaceChar
          match r1.drop ws.length with
          | q :: r2 =>
            if isQuoteChar q then
              let run := r2.takeWhile (fun d => !isQuoteChar d)
              if run.isEmpty then tryChildFns rest s
              else
                match r2.drop run.length with
                | q2 :: _ =>
                  if isQuoteChar q2 then
                    some (run, f.length + 1 + ws.length + 1 + run.length + 1)
                  else tryChildFns rest s
                | [] => tryChildFns rest s
            else tryChildFns rest s
          | [] => tryChildFns rest s
        else tryChildFns rest s
      | [] => tryChildFns rest s
    | none => tryChildFns rest s

/-- `instance_ref_re` (scanner.rs:303). -/
def tryInstanceRef (s : List Char) : Option (List Char × Nat) :=
  tryChildFns childLookupFns s

/-- `string_re` (scanner.rs:304): a quote, 2 to 60 non-quote characters,
then a quote.  Since the repeated class excludes both quote characters,
the greedy repetition matches exactly the maximal run, which must have
length 2-60 and be followed by a quote. -/
def tryStringLit (s : List Char) : Option (List Char × Nat) :=
  match s with
  | q :: r =>
    if isQuoteChar q then
      let run := r.takeWhile (fun d => !isQuoteChar d)
      if 2 ≤ run.length && run.length ≤ 60 then
        match r.drop run.length with
        | q2 :: _ => if isQuoteChar q2 then some (run, run.length + 2) else none
        | [] => none
      else none
    else none
  | [] => none

/-- `var_re` (scanner.rs:305): `^local\s+(\w+)\s*=` (multiline); tried
only at line starts by `scanVarsAux`. -/
def tryVar (s : List Char) : Option (List Char × Nat) :=
  match matchLit "local".data s with
  | none => none
  | some r =>
    let ws := r.takeWhile isSpaceChar
    if ws.isEmpty then none else
    let r1 := r.drop ws.length
    let v := r1.takeWhile isWordChar
    if v.isEmpty then none else
    let r2 := r1.drop v.length
    let ws2 := r2.takeWhile isSpaceChar
    match r2.drop ws2.length with
    | c :: _ => if c = '=' then some (v, 5 + ws.length + v.length + ws2.length + 1) else none
    | [] => none

/-- Driver for the `(?m)^`-anchored `var_re`: a position is a line start
when it is the string start or preceded by a newline.  A match never ends
with a newline (its last character is `=`), so scanning resumes mid-line. -/
def scanVarsAux : Nat → Bool → List Char → List (List Char)
  | 0, _, _ => []
  | _, _, [] => []
  | fuel + 1, atStart, c :: rest =>
    if atStart then
      match tryVar (c :: rest) with
      | some (v, k) => v :: scanVarsAux fuel false ((c :: rest).drop (max k 1))
      | none => scanVarsAux fuel (c = '\n') rest
    else scanVarsAux fuel (c = '\n') rest

def scanVars (s : List Char) : List (List Char) := scanVarsAux s.length true s

/-- `ScriptOutline` (scanner.rs:39-49). -/
structure ScriptOutline where
  functions : List String
  requires : List String
  services : List String
  remote_accesses : List String
  instance_refs : List String
  string_constants : List String
  top_level_vars : List String
  line_count : Nat

/-- `if !acc.contains(&x) { acc.push(x) }`. -/
def pushIfNew (acc : List String) (x : String) : List String :=
  if acc.contains x then acc else acc ++ [x]

/-- The fixed noise denylist of `generate_outline` (scanner.rs:361-367). -/
def noiseList : List String :=
  ["Frame", "TextLabel", "TextButton", "ImageLabel", "ImageButton",
   "ScreenGui", "ScrollingFrame", "UIListLayout", "UICorner",
   "UIPadding", "UIStroke", "UIGridLayout", "UIAspectRatioConstraint",
   "Color3", "Vector3", "CFrame", "UDim2", "UDim",
   "rbxassetid://", "Content-Type", "application/json"]

/-- `generate_outline` (scanner.rs:295-400). -/
def generate_outline (source : String) : ScriptOutline :=
  let chars := source.data
  let line_count := (splitLines chars).length
  let functions := (scanAll tryFn chars).map
    (fun cap => String.mk cap.1 ++ "(" ++ String.mk (trimChars cap.2) ++ ")")
  let requires := (scanAll tryRequire chars).foldl
    (fun acc run => pushIfNew acc (String.mk (trimChars run))) []
  let services := (scanAll tryService chars).foldl
    (fun acc run => pushIfNew acc (String.mk run)) []
  let spans := lineSpans chars
  let remote_accesses := (scanAllPos tryRemote chars).foldl
    (fun acc mp =>
      let line := ((spans.find? (fun sp => sp.1 ≤ mp.2 && mp.2 < sp.1 + sp.2.length)).map
        Prod.snd).getD []
      let trimmed := trimChars line
      if trimmed.length ≤ 120 then pushIfNew acc (String.mk trimmed)
      else pushIfNew acc mp.1) []
  let instance_refs := (scanAll tryInstanceRef chars).foldl
    (fun acc run => pushIfNew acc (String.mk run)) []
  let string_constants := (scanAll tryStringLit chars).foldl
    (fun acc run =>
      let val := String.mk run
      if !noiseList.contains val && !services.contains val && !acc.contains val &&
          acc.length < 50 then acc ++ [val] else acc) []
  let top_level_vars := (scanVars chars).foldl
    (fun acc run =>
      let v := String.mk run
      if v.length > 1 && v ≠ "v" && v ≠ "i" && v ≠ "k" then
        (if !acc.contains v && acc.length < 20 then acc ++ [v] else acc)
      else acc) []
  { functions := functions, requires := requires, services := services,
    remote_accesses := remote_accesses, instance_refs := instance_refs,
    string_constants := string_constants, top_level_vars := top_level_vars,
    line_count := line_count }

-- ── Script chunk processing (scanner.rs:404-455) ─────────────────────────

/-- `ScriptEntry` (scanner.rs:51-62). -/
structure ScriptEntry where
  path : String
  class_name : String
  enabled : Option Bool
  outline : Option ScriptOutline
  decompiled : Bool
  line_count : Nat
  size : Nat

def strArrJson (xs : List String) : Json := .arr (xs.map .str)

/-- serde serialization of `ScriptOutline` (all fields present, in
declaration order). -/
def outlineJson (o : ScriptOutline) : Json :=
  .obj [("functions", strArrJson o.functions), ("requires", strArrJson o.requires),
        ("services", strArrJson o.services), ("remote_accesses", strArrJson o.remote_accesses),
        ("instance_refs", strArrJson o.instance_refs),
        ("string_constants", strArrJson o.string_constants),
        ("top_level_vars", strArrJson o.top_level_vars),
        ("line_count", .num o.line_count)]

/-- serde serialization of `ScriptEntry`: `enabled` and `outline` are
skipped when `None` (`skip_serializing_if = "Option::is_none"`). -/
def scriptEntryJson (e : ScriptEntry) : Json :=
  .obj ([("path", .str e.path), ("class_name", .str e.class_name)] ++
        (match e.enabled with
         | some b => [("enabled", Json.bool b)]
         | none => []) ++
        (match e.outline with
         | some o => [("outline", outlineJson o)]
         | none => []) ++
        [("decompiled", .bool e.decompiled), ("line_count", .num e.line_count),
         ("size", .num e.size)])

/-- The per-record body of the `for script in scripts` loop
(scanner.rs:411-435): field extraction with defaults, line count, byte
size, and the outline built only from non-empty source. -/
def scriptEntryOf (script : Json) : ScriptEntry :=
  let source := strOrEmpty script "source"
  { path := strOrEmpty script "path"
    class_name := strOrEmpty script "class_name"
    enabled := (jGet script "enabled").bind asBool
    outline := if source ≠ "" then some (generate_outline source) else none
    decompiled := ((jGet script "decompiled").bind asBool).getD false
    line_count := (splitLines source.data).length
    size := (utf8Bytes source).length }

/-- serde serialization of `ScriptFull { path, source }` (scanner.rs:64-68). -/
def scriptFullJson (path source : String) : Json :=
  .obj [("path", .str path), ("source", .str source)]

/-- `process_script_chunk` (scanner.rs:405-455): reject a non-array
payload before touching any file; otherwise build one entry per record
plus a full-source record for each non-empty source, then append the two
arrays to the outline file and the full-source file in that order.  The
result carries the per-file states reached when an append fails midway. -/
def process_script_chunk (sf ff : FileState) (data : Json) :
    Except String Unit × FileState × FileState :=
  match data with
  | .arr scripts =>
    let outlines := scripts.map (fun s => scriptEntryJson (scriptEntryOf s))
    let fulls := (scripts.filter (fun s => strOrEmpty s "source" ≠ "")).map
      (fun s => scriptFullJson (strOrEmpty s "path") (strOrEmpty s "source"))
    match append_to_array sf (.arr outlines) with
    | .error e => (.error e, sf, ff)
    | .ok sf2 =>
      match append_to_array ff (.arr fulls) with
      | .error e => (.error e, sf2, ff)
      | .ok ff2 => (.ok (), sf2, ff2)
  | _ => (.error "scripts data must be an array", sf, ff)

-- ── Scan sessions and route handlers (routes/scanner.rs) ─────────────────

/-- `ScanStatus` (models.rs): the ephemeral per-target session record.
Timestamps are modelled as abstract clock values. -/
structure ScanStatus where
  place_id : Nat
  status : String
  progress : String
  started_at : Nat

/-- The `active_scans` map (`HashMap<u64, ScanStatus>`), modelled as an
association list with unique keys. -/
abbrev Sessions : Type := List (Nat × ScanStatus)

def lookupSession : Sessions → Nat → Option ScanStatus
  | [], _ => none
  | (k, v) :: rest, pid => if k = pid then some v else lookupSession rest pid

/-- `HashMap::remove`. -/
def removeSession : Sessions → Nat → Sessions
  | [], _ => []
  | (k, v) :: rest, pid =>
    if k = pid then removeSession rest pid else (k, v) :: removeSession rest pid

/-- `get_mut` followed by a `progress` assignment. -/
def setProgress : Sessions → Nat → String → Sessions
  | [], _, _ => []
  | (k, v) :: rest, pid, prog =>
    if k = pid then (k, { v with progress := prog }) :: setProgress rest pid prog
    else (k, v) :: setProgress rest pid prog

/-- The session-tracking block of `post_scan_data`
(routes/scanner.rs:56-67): `entry(place_id).or_insert_with(initial)`
followed by setting `progress` to `"receiving <chunk_type>"`. -/
def touchSession (now : Nat) (ss : Sessions) (pid : Nat) (ctype : String) : Sessions :=
  let ss1 : Sessions :=
    if (lookupSession ss pid).isSome then ss
    else ss ++ [(pid, { place_id := pid, status := "scanning",
                        progress := "receiving data", started_at := now })]
  setProgress ss1 pid ("receiving " ++ ctype)

/-- An HTTP response: status code plus JSON body. -/
structure HttpResp where
  status : Nat
  body : Json

/-- `ScanChunk` (scanner.rs:98-107); the unused `chunk_index` and
`service_name` fields are omitted. -/
structure ScanChunk where
  place_id : Nat
  chunk_type : String
  data : Json

/-- The per-target storage directory: one `FileState` per scope filename. -/
structure Storage where
  tree : FileState
  scripts : FileState
  scriptsFull : FileState
  remotes : FileState
  properties : FileState
  services : FileState

def errorBody (e : String) (code : Nat) : Json :=
  .obj [("ok", .bool false), ("error", .str e), ("status", .num code)]

def chunkOkBody (chunk : ScanChunk) : Json :=
  .obj [("ok", .bool true), ("chunk_type", .str chunk.chunk_type),
        ("place_id", .num chunk.place_id)]

/-- `post_scan_data` (routes/scanner.rs:41-107).  The secret check is the
caller's concern (spec §6) and is not modelled.  Note the session map is
updated before the chunk type is validated. -/
def post_scan_data (now : Nat) (sessions : Sessions) (storage : Storage)
    (chunk : ScanChunk) : HttpResp × Sessions × Storage :=
  let sessions' := touchSession now sessions chunk.place_id chunk.chunk_type
  if chunk.chunk_type = "tree" then
    match append_to_array storage.tree chunk.data with
    | .ok f => (⟨200, chunkOkBody chunk⟩, sessions', { storage with tree := f })
    | .error e => (⟨500, errorBody e 500⟩, sessions', storage)
  else if chunk.chunk_type = "scripts" then
    match process_script_chunk storage.scripts storage.scriptsFull chunk.data with
    | (.ok _, sf, ff) =>
      (⟨200, chunkOkBody chunk⟩, sessions', { storage with scripts := sf, scriptsFull := ff })
    | (.error e, sf, ff) =>
      (⟨500, errorBody e 500⟩, sessions', { storage with scripts := sf, scriptsFull := ff })
  else if chunk.chunk_type = "remotes" then
    match append_to_array storage.remotes chunk.data with
    | .ok f => (⟨200, chunkOkBody chunk⟩, sessions', { storage with remotes := f })
    | .error e => (⟨500, errorBody e 500⟩, sessions', storage)
  else if chunk.chunk_type = "properties" then
    match append_to_array storage.properties chunk.data with
    | .ok f => (⟨200, chunkOkBody chunk⟩, sessions', { storage with properties := f })
    | .error e => (⟨500, errorBody e 500⟩, sessions', storage)
  else if chunk.chunk_type = "services" then
    match save_chunk storage.services chunk.data with
    | .ok f => (⟨200, chunkOkBody chunk⟩, sessions', { storage with services := f })
    | .error e => (⟨500, errorBody e 500⟩, sessions', storage)
  else
    (⟨400, errorBody ("Unknown chunk type: " ++ chunk.chunk_type) 400⟩, sessions', storage)

-- ── Manifest finalization (scanner.rs:263-291, routes/scanner.rs:110-146) ─

/-- `ScanCompleteRequest` (scanner.rs:109-124).  `scan_duration_secs` is
an `f64` in Rust; it is copied through untouched, so it is modelled as an
opaque integer value. -/
structure ScanCompleteRequest where
  place_id : Nat
  game_id : Nat
  place_version : Nat
  place_name : String
  creator_id : Nat
  creator_type : String
  job_id : String
  scopes : List String
  scan_duration_secs : Int
  instance_count : Nat
  script_count : Nat
  remote_count : Nat
  executor_supports_decompile : Bool

/-- `GameManifest` (scanner.rs:11-28). -/
structure GameManifest where
  place_id : Nat
  game_id : Nat
  place_version : Nat
  place_name : String
  creator_id : Nat
  creator_type : String
  job_id : String
  tree_hash : String
  scanned_at : Nat
  scan_duration_secs : Int
  scopes : List String
  instance_count : Nat
  script_count : Nat
  remote_count : Nat
  executor_supports_decompile : Bool

/-- serde serialization of `GameManifest` in field order. -/
def manifestJson (m : GameManifest) : Json :=
  .obj [("place_id", .num m.place_id), ("game_id", .num m.game_id),
        ("place_version", .num m.place_version), ("place_name", .str m.place_name),
        ("creator_id", .num m.creator_id), ("creator_type", .str m.creator_type),
        ("job_id", .str m.job_id), ("tree_hash", .str m.tree_hash),
        ("scanned_at", .num m.scanned_at), ("scan_duration_secs", .num m.scan_duration_secs),
        ("scopes", strArrJson m.scopes), ("instance_count", .num m.instance_count),
        ("script_count", .num m.script_count), ("remote_count", .num m.remote_count),
        ("executor_supports_decompile", .bool m.executor_supports_decompile)]

/-- `write_manifest` (scanner.rs:263-291): load the tree scope
(`unwrap_or(json!([]))` — any load failure becomes the empty array), hash
it, assemble the manifest with a server-stamped timestamp, persist it.
`writeOk` is the disposition of the `create_dir_all`/`fs::write` calls. -/
def write_manifest (treeFile : FileState) (writeOk : Bool) (now : Nat)
    (req : ScanCompleteRequest) : Except String GameManifest :=
  let tree_data := match load_file treeFile with
    | .ok j => j
    | .error _ => .arr []
  let manifest : GameManifest :=
    { place_id := req.place_id, game_id := req.game_id,
      place_version := req.place_version, place_name := req.place_name,
      creator_id := req.creator_id, creator_type := req.creator_type,
      job_id := req.job_id, tree_hash := compute_tree_hash tree_data,
      scanned_at := now, scan_duration_secs := req.scan_duration_secs,
      scopes := req.scopes, instance_count := req.instance_count,
      script_count := req.script_count, remote_count := req.remote_count,
      executor_supports_decompile := req.executor_supports_decompile }
  if writeOk then .ok manifest else .error "Failed to write manifest"

/-- `post_scan_complete` (routes/scanner.rs:110-146): finalize the scan.
The session entry for the target is removed on both the success and the
failure path. -/
def post_scan_complete (treeFile : FileState) (writeOk : Bool) (now : Nat)
    (sessions : Sessions) (req : ScanCompleteRequest) : HttpResp × Sessions :=
  match write_manifest treeFile writeOk now req with
  | .ok m =>
    (⟨200, .obj [("ok", .bool true), ("manifest", manifestJson m)]⟩,
     removeSession sessions req.place_id)
  | .error e =>
    (⟨500, errorBody e 500⟩, removeSession sessions req.place_id)

-- ── Tree query filtering (scanner.rs:459-510) ────────────────────────────

/-- `GameQuery` (scanner.rs:126-133).  The Rust field `class` is named
`cls` here because `class` is a Lean keyword. -/
structure GameQuery where
  path : Option String
  search : Option String
  cls : Option String
  include_source : Option Bool
  max_depth : Option Nat

/-- `str::to_lowercase` (per-character lowering agrees with it on ASCII). -/
def toLowerStr (s : String) : String := String.mk (s.data.map Char.toLower)

/-- `str::starts_with`. -/
def strStartsWith (hay pre : String) : Bool := List.isPrefixOf pre.data hay.data

/-- Contiguous-sublist check. -/
def listIsInfixOf (needle hay : List Char) : Bool :=
  match hay with
  | [] => needle.isEmpty
  | _ :: rest => List.isPrefixOf needle hay || listIsInfixOf needle rest

/-- `str::contains`. -/
def strContains (hay needle : String) : Bool := listIsInfixOf needle.data hay.data

/-- `char::eq_ignore_ascii_case`, lifted to strings. -/
def asciiLowerChar (c : Char) : Char :=
  if c.toNat ≥ 65 && c.toNat ≤ 90 then Char.ofNat (c.toNat + 32) else c

def eqIgnoreAsciiCase (a b : String) : Bool :=
  a.data.map asciiLowerChar = b.data.map asciiLowerChar

/-- The filter predicate of `filter_tree` (scanner.rs:465-486): optional
case-insensitive path prefix, class equality, and name/path substring
checks, AND-combined. -/
def treeNodeMatches (node : Json) (q : GameQuery) : Bool :=
  let path := strOrEmpty node "path"
  let cls := strOrEmpty node "class_name"
  let name := strOrEmpty node "name"
  (match q.path with
   | some p => strStartsWith (toLowerStr path) (toLowerStr p)
   | none => true) &&
  (match q.cls with
   | some c => eqIgnoreAsciiCase cls c
   | none => true) &&
  (match q.search with
   | some s =>
     let lower := toLowerStr s
     strContains (toLowerStr name) lower || strContains (toLowerStr path) lower
   | none => true)

mutual
/-- `trim_depth` (scanner.rs:498-510): once the traversal depth reaches
the limit, remove the `children` key; otherwise recurse into an
array-valued `children` field with depth + 1. -/
def trim_depth : Json → Nat → Nat → Json
  | .obj fs, current, mx =>
    if mx ≤ current then .obj (List.filter (fun p => p.1 ≠ "children") fs)
    else .obj (trimFields fs current mx)
  | other, _, _ => other

/-- `node.get_mut("children")` touches exactly the `children` entry. -/
def trimFields : List (String × Json) → Nat → Nat → List (String × Json)
  | [], _, _ => []
  | (k, v) :: rest, current, mx =>
    (if k = "children" then (k, trimChildrenArr v current mx) else (k, v)) ::
      trimFields rest current mx

/-- `children.as_array_mut()`: non-arrays are left untouched. -/
def trimChildrenArr : Json → Nat → Nat → Json
  | .arr cs, current, mx => .arr (trimList cs current mx)
  | other, _, _ => other

def trimList : List Json → Nat → Nat → List Json
  | [], _, _ => []
  | c :: cs, current, mx => trim_depth c (current + 1) mx :: trimList cs current mx
end

/-- `filter_tree` (scanner.rs:459-496): non-arrays pass through; arrays
are filtered by `treeNodeMatches`, then depth-trimmed when `max_depth`
is set. -/
def filter_tree (tree : Json) (q : GameQuery) : Json :=
  match tree with
  | .arr items =>
    .arr ((List.filter (fun node => treeNodeMatches node q) items).map
      (fun node =>
        match q.max_depth with
        | some mx => trim_depth node 0 mx
        | none => node))
  | other => other

-- ── Session-map lemmas ───────────────────────────────────────────────────

theorem lookupSession_remove_self (ss : Sessions) (pid : Nat) :
    lookupSession (removeSession ss pid) pid = none := by
  induction ss with
  | nil => rfl
  | cons q ss ih =>
    obtain ⟨k, v⟩ := q
    by_cases h : k = pid
    · simpa [removeSession, h] using ih
    · simpa [removeSession, lookupSession, h] using ih

theorem lookupSession_remove_other (ss : Sessions) (pid k : Nat) (h : k ≠ pid) :
    lookupSession (removeSession ss pid) k = lookupSession ss k := by
  induction ss with
  | nil => rfl
  | cons q ss ih =>
    obtain ⟨k1, v⟩ := q
    have hpk : pid ≠ k := fun hh => h hh.symm
    by_cases h1 : k1 = pid
    · simpa [removeSession, lookupSession, h1, hpk] using ih
    · by_cases h2 : k1 = k
      · simp [removeSession, lookupSession, h, h1, h2]
      · simpa [removeSession, lookupSession, h1, h2] using ih

theorem lookupSession_setProgress (ss : Sessions) (pid : Nat) (prog : String) :
    lookupSession (setProgress ss pid prog) pid
      = (lookupSession ss pid).map (fun v => { v with progress := prog }) := by
  induction ss with
  | nil => rfl
  | cons q ss ih =>
    obtain ⟨k1, v⟩ := q
    by_cases h1 : k1 = pid
    · simp [setProgress, lookupSession, h1]
    · simpa [setProgress, lookupSession, h1] using ih

theorem lookupSession_append_right (ss : Sessions) (pid : Nat) (v : ScanStatus)
    (h : lookupSession ss pid = none) :
    lookupSession (ss ++ [(pid, v)]) pid = some v := by
  induction ss with
  | nil => simp [lookupSession]
  | cons q ss ih =>
    obtain ⟨k1, w⟩ := q
    by_cases h1 : k1 = pid
    · simp [lookupSession, h1] at h
    · simp only [lookupSession, h1] at h
      simpa [lookupSession, h1] using ih h

theorem lookupSession_touch_fresh (now : Nat) (ss : Sessions) (pid : Nat) (ctype : String)
    (h : lookupSession ss pid = none) :
    lookupSession (touchSession now ss pid ctype) pid
      = some { place_id := pid, status := "scanning",
               progress := "receiving " ++ ctype, started_at := now } := by
  simp only [touchSession, h, Option.isSome_none, Bool.false_eq_true, if_false]
  rw [lookupSession_setProgress, lookupSession_append_right ss pid _ h]
  rfl

-- ── Claims ───────────────────────────────────────────────────────────────

/-- The element list a payload contributes in append mode: an array
element-wise, anything else as a single element (scanner.rs:161-164). -/
def payloadItems (items : Json) : List Json :=
  match items with
  | .arr a => a
  | v => [v]

/-- C2 counterexample: the chunk-merge protocol is not idempotent.  For
the tree scope (append mode), submitting the same one-element chunk twice
starting from no stored file leaves a two-element file, not the
one-element file a single submission leaves. -/
theorem append_to_array_twice_not_idempotent :
    Except.bind (append_to_array FileState.absent (Json.arr [Json.null]))
        (fun f => append_to_array f (Json.arr [Json.null]))
      ≠ append_to_array FileState.absent (Json.arr [Json.null]) := by
  simp [append_to_array, appendWrite, Except.bind, parseVecOrDefault]

/-- C2 amended: only the services scope (overwrite semantics,
`save_chunk`) is idempotent; for the append-mode scopes resubmitting a
chunk concatenates it again, duplicating its entries. -/
theorem chunk_merge_idempotency_amended (f : FileState) (d : Json) (xs : List Json) :
    Except.bind (save_chunk f d) (fun f1 => save_chunk f1 d) = save_chunk f d ∧
    append_to_array FileState.absent (.arr xs) = .ok (.stored (.arr xs)) ∧
    Except.bind (append_to_array FileState.absent (.arr xs))
        (fun f1 => append_to_array f1 (.arr xs))
      = .ok (.stored (.arr (xs ++ xs))) := by
  refine ⟨rfl, ?_, ?_⟩ <;> simp [append_to_array, appendWrite, Except.bind, parseVecOrDefault]

/-- C3 counterexample: when the existing scope file is present but
reading it fails, the append-mode write returns an error — it does not
treat the contents as an empty array and succeed. -/
theorem append_unreadable_fails :
    append_to_array FileState.unreadable (Json.arr [Json.null])
      = .error "Failed to read scope file" := rfl

/-- C3 amended: only a parse failure (content that is not a JSON array,
whether malformed or a non-array value) is treated as an empty array; a
read failure propagates as an error. -/
theorem append_lenient_parse_only (items : Json) (j : Json) (hne : ∀ xs, j ≠ .arr xs) :
    append_to_array FileState.corrupt items = .ok (.stored (.arr (payloadItems items))) ∧
    append_to_array (FileState.stored j) items = .ok (.stored (.arr (payloadItems items))) ∧
    append_to_array FileState.unreadable items = .error "Failed to read scope file" := by
  refine ⟨?_, ?_, rfl⟩
  · cases items <;> simp [append_to_array, appendWrite, payloadItems]
  · cases j with
    | arr xs => exact absurd rfl (hne xs)
    | null => cases items <;> simp [append_to_array, appendWrite, payloadItems, parseVecOrDefault]
    | bool b => cases items <;> simp [append_to_array, appendWrite, payloadItems, parseVecOrDefault]
    | num n => cases items <;> simp [append_to_array, appendWrite, payloadItems, parseVecOrDefault]
    | str s => cases items <;> simp [append_to_array, appendWrite, payloadItems, parseVecOrDefault]
    | obj fs => cases items <;> simp [append_to_array, appendWrite, payloadItems, parseVecOrDefault]

theorem append_lenient_parse_only_witness :
    (∀ xs, Json.null ≠ Json.arr xs) ∧
    (append_to_array FileState.corrupt (Json.arr [Json.bool true])
        = .ok (.stored (.arr [Json.bool true])) ∧
     append_to_array (FileState.stored Json.null) (Json.arr [Json.bool true])
        = .ok (.stored (.arr [Json.bool true])) ∧
     append_to_array FileState.unreadable (Json.arr [Json.bool true])
        = .error "Failed to read scope file") :=
  ⟨fun _ h => Json.noConfusion h,
   append_lenient_parse_only (Json.arr [Json.bool true]) Json.null
     (fun _ h => Json.noConfusion h)⟩

/-- C4: starting from no stored file, appending array A then array B
stores exactly the JSON array A ++ B in submission order, and a non-array
payload is appended as one single element. -/
theorem append_concat_submission_order (A B : List Json) (v : Json)
    (hv : ∀ xs, v ≠ .arr xs) :
    append_to_array FileState.absent (.arr A) = .ok (.stored (.arr A)) ∧
    append_to_array (FileState.stored (.arr A)) (.arr B) = .ok (.stored (.arr (A ++ B))) ∧
    append_to_array FileState.absent v = .ok (.stored (.arr [v])) := by
  refine ⟨by simp [append_to_array, appendWrite], by simp [append_to_array, appendWrite, parseVecOrDefault], ?_⟩
  cases v with
  | arr xs => exact absurd rfl (hv xs)
  | null => rfl
  | bool b => rfl
  | num n => rfl
  | str s => rfl
  | obj fs => rfl

theorem append_concat_submission_order_witness :
    (∀ xs, Json.str "solo" ≠ Json.arr xs) ∧
    (append_to_array FileState.absent (.arr [Json.num 1]) = .ok (.stored (.arr [Json.num 1])) ∧
     append_to_array (FileState.stored (.arr [Json.num 1])) (.arr [Json.num 2])
        = .ok (.stored (.arr [Json.num 1, Json.num 2])) ∧
     append_to_array FileState.absent (Json.str "solo")
        = .ok (.stored (.arr [Json.str "solo"]))) :=
  ⟨fun _ h => Json.noConfusion h,
   append_concat_submission_order [Json.num 1] [Json.num 2] (Json.str "solo")
     (fun _ h => Json.noConfusion h)⟩

/-- C10: a scripts chunk whose payload is not an array fails with a
descriptive error before either script file is touched, while the plain
append-mode scopes accept the same non-array payload by pushing it as a
single element. -/
theorem scripts_non_array_rejected_before_write (sf ff : FileState) (data : Json)
    (h : ∀ xs, data ≠ .arr xs) (xs : List Json) :
    process_script_chunk sf ff data = (.error "scripts data must be an array", sf, ff) ∧
    append_to_array (FileState.stored (.arr xs)) data
      = .ok (.stored (.arr (xs ++ [data]))) := by
  constructor
  · cases data with
    | arr a => exact absurd rfl (h a)
    | null => rfl
    | bool b => rfl
    | num n => rfl
    | str s => rfl
    | obj fs => rfl
  · cases data with
    | arr a => exact absurd rfl (h a)
    | null => simp [append_to_array, appendWrite, parseVecOrDefault]
    | bool b => simp [append_to_array, appendWrite, parseVecOrDefault]
    | num n => simp [append_to_array, appendWrite, parseVecOrDefault]
    | str s => simp [append_to_array, appendWrite, parseVecOrDefault]
    | obj fs => simp [append_to_array, appendWrite, parseVecOrDefault]

theorem scripts_non_array_rejected_before_write_witness :
    (∀ xs, Json.str "oops" ≠ Json.arr xs) ∧
    (process_script_chunk FileState.absent FileState.absent (Json.str "oops")
        = (.error "scripts data must be an array", FileState.absent, FileState.absent) ∧
     append_to_array (FileState.stored (.arr [])) (Json.str "oops")
        = .ok (.stored (.arr [Json.str "oops"]))) :=
  ⟨fun _ h => Json.noConfusion h,
   scripts_non_array_rejected_before_write FileState.absent FileState.absent
     (Json.str "oops") (fun _ h => Json.noConfusion h) []⟩

/-- C6: finalizing a scan removes the target's session from the session
map unconditionally — on the success path and on the persistence-failure
path alike (where a descriptive 500 error is returned); sessions of other
targets are untouched. -/
theorem finalize_always_clears_session (treeFile : FileState) (writeOk : Bool) (now : Nat)
    (sessions : Sessions) (req : ScanCompleteRequest) (k : Nat) (hk : k ≠ req.place_id) :
    lookupSession (post_scan_complete treeFile writeOk now sessions req).2 req.place_id
      = none ∧
    lookupSession (post_scan_complete treeFile writeOk now sessions req).2 k
      = lookupSession sessions k ∧
    (writeOk = false →
      (post_scan_complete treeFile writeOk now sessions req).1
        = ⟨500, errorBody "Failed to write manifest" 500⟩) := by
  have hsess : (post_scan_complete treeFile writeOk now sessions req).2
      = removeSession sessions req.place_id := by
    cases writeOk <;> simp [post_scan_complete, write_manifest]
  refine ⟨?_, ?_, ?_⟩
  · rw [hsess]
    exact lookupSession_remove_self _ _
  · rw [hsess]
    exact lookupSession_remove_other _ _ _ hk
  · intro hw
    subst hw
    simp [post_scan_complete, write_manifest]

/-- A concrete finalize request for the C6 witness. -/
def c6Req : ScanCompleteRequest :=
  { place_id := 7, game_id := 1, place_version := 1, place_name := "p",
    creator_id := 2, creator_type := "User", job_id := "j", scopes := ["tree"],
    scan_duration_secs := 3, instance_count := 0, script_count := 0,
    remote_count := 0, executor_supports_decompile := false }

/-- A concrete session map for the C6 witness. -/
def c6Sessions : Sessions :=
  [(7, { place_id := 7, status := "scanning", progress := "receiving tree",
         started_at := 0 })]

theorem finalize_always_clears_session_witness :
    ((9 : Nat) ≠ c6Req.place_id) ∧
    (lookupSession (post_scan_complete FileState.absent false 0 c6Sessions c6Req).2
        c6Req.place_id = none ∧
     lookupSession (post_scan_complete FileState.absent false 0 c6Sessions c6Req).2 9
       = lookupSession c6Sessions 9 ∧
     ((false : Bool) = false →
      (post_scan_complete FileState.absent false 0 c6Sessions c6Req).1
        = ⟨500, errorBody "Failed to write manifest" 500⟩)) :=
  ⟨by decide,
   finalize_always_clears_session FileState.absent false 0 c6Sessions c6Req 9 (by decide)⟩

/-- C9: a chunk with an unknown scope type is rejected with a 400 error
and no scope file is written, but the session map has already been
upserted — the session's progress reads "receiving <scope>" and, for a
previously untracked target, a fresh active session is left behind. -/
theorem unknown_chunk_type_rejected_but_tracked (now : Nat) (sessions : Sessions)
    (storage : Storage) (chunk : ScanChunk)
    (h : chunk.chunk_type ∉ ["tree", "scripts", "remotes", "properties", "services"]) :
    post_scan_data now sessions storage chunk
      = (⟨400, errorBody ("Unknown chunk type: " ++ chunk.chunk_type) 400⟩,
         touchSession now sessions chunk.place_id chunk.chunk_type, storage) ∧
    (lookupSession sessions chunk.place_id = none →
      lookupSession (post_scan_data now sessions storage chunk).2.1 chunk.place_id
        = some { place_id := chunk.place_id, status := "scanning",
                 progress := "receiving " ++ chunk.chunk_type, started_at := now }) := by
  simp only [List.mem_cons, List.mem_singleton, not_or] at h
  obtain ⟨h1, h2, h3, h4, h5, -⟩ := h
  have hmain : post_scan_data now sessions storage chunk
      = (⟨400, errorBody ("Unknown chunk type: " ++ chunk.chunk_type) 400⟩,
         touchSession now sessions chunk.place_id chunk.chunk_type, storage) := by
    simp [post_scan_data, h1, h2, h3, h4, h5]
  refine ⟨hmain, fun hfresh => ?_⟩
  rw [hmain]
  exact lookupSession_touch_fresh now sessions chunk.place_id chunk.chunk_type hfresh

/-- An empty per-target storage directory. -/
def emptyStorage : Storage :=
  { tree := .absent, scripts := .absent, scriptsFull := .absent,
    remotes := .absent, properties := .absent, services := .absent }

/-- The concrete rejected chunk of the C9 witness. -/
def c9Chunk : ScanChunk := { place_id := 7, chunk_type := "bogus", data := .null }

theorem unknown_chunk_type_rejected_but_tracked_witness :
    (c9Chunk.chunk_type ∉ ["tree", "scripts", "remotes", "properties", "services"]) ∧
    (post_scan_data 5 [] emptyStorage c9Chunk
       = (⟨400, errorBody ("Unknown chunk type: " ++ c9Chunk.chunk_type) 400⟩,
          touchSession 5 [] c9Chunk.place_id c9Chunk.chunk_type, emptyStorage) ∧
     (lookupSession [] c9Chunk.place_id = none →
      lookupSession (post_scan_data 5 [] emptyStorage c9Chunk).2.1 c9Chunk.place_id
        = some { place_id := c9Chunk.place_id, status := "scanning",
                 progress := "receiving " ++ c9Chunk.chunk_type, started_at := 5 })) :=
  ⟨by decide, unknown_chunk_type_rejected_but_tracked 5 [] emptyStorage c9Chunk (by decide)⟩

/-- C5: a scripts chunk whose payload is an array appends exactly one
serialized `ScriptEntry` per record to the outline file, with the
`outline` field present exactly when that record's source text is
non-empty, and appends a `ScriptFull {path, source}` to the full-source
file for exactly the records with non-empty source, in submission
order. -/
theorem scripts_chunk_dual_write (xs ys scripts : List Json) :
    process_script_chunk (.stored (.arr xs)) (.stored (.arr ys)) (.arr scripts)
      = (.ok (),
         .stored (.arr (xs ++ scripts.map (fun s => scriptEntryJson (scriptEntryOf s)))),
         .stored (.arr (ys ++ (scripts.filter (fun s => strOrEmpty s "source" ≠ "")).map
           (fun s => scriptFullJson (strOrEmpty s "path") (strOrEmpty s "source"))))) ∧
    ∀ s : Json, hasField (scriptEntryJson (scriptEntryOf s)) "outline" = true ↔
      strOrEmpty s "source" ≠ "" := by
  constructor
  · simp [process_script_chunk, append_to_array, appendWrite, parseVecOrDefault]
  · intro s
    by_cases hs : strOrEmpty s "source" = ""
    · simp only [scriptEntryJson, scriptEntryOf, hasField, hs]
      cases henb : (jGet s "enabled").bind asBool <;>
        simp [henb, hs, List.any_append]
    · simp only [scriptEntryJson, scriptEntryOf, hasField]
      rw [if_pos hs]
      cases henb : (jGet s "enabled").bind asBool <;>
        simp [henb, hs, List.any_append]

/-- A concrete script record with non-empty source for the C5 witness. -/
def c5Script : Json :=
  .obj [("path", .str "game.Workspace.S"), ("class_name", .str "Script"),
        ("source", .str "local x = 1")]

theorem scripts_chunk_dual_write_witness :
    hasField (scriptEntryJson (scriptEntryOf c5Script)) "outline" = true :=
  ((scripts_chunk_dual_write [] [] []).2 c5Script).mpr (by decide)

-- ── C7 support ───────────────────────────────────────────────────────────

/-- A query carrying only a depth limit. -/
def qDepth (n : Nat) : GameQuery :=
  { path := none, search := none, cls := none, include_source := none, max_depth := some n }

theorem treeNodeMatches_qDepth (node : Json) (n : Nat) :
    treeNodeMatches node (qDepth n) = true := rfl

theorem any_filter_ne_children (l : List (String × Json)) :
    (List.filter (fun p => p.1 ≠ "children") l).any (fun p => p.1 = "children") = false := by
  induction l with
  | nil => rfl
  | cons p l ih =>
    by_cases h : p.1 = "children" <;> simp [List.filter_cons, h, ih]

theorem hasField_trim_depth_limit (node : Json) (c mx : Nat) (h : mx ≤ c) :
    hasField (trim_depth node c mx) "children" = false := by
  cases node with
  | obj fs => simp [trim_depth, if_pos h, hasField, any_filter_ne_children]
  | null => rfl
  | bool b => rfl
  | num n => rfl
  | str s => rfl
  | arr items => rfl

theorem lookupField_trimFields (fs : List (String × Json)) (c mx : Nat) (k : String) :
    lookupField (trimFields fs c mx) k
      = (lookupField fs k).map
          (fun v => if k = "children" then trimChildrenArr v c mx else v) := by
  induction fs with
  | nil => rfl
  | cons p fs ih =>
    obtain ⟨k1, v⟩ := p
    by_cases h2 : k1 = "children"
    · subst h2
      by_cases h1 : k = "children"
      · subst h1
        simp [trimFields, lookupField]
      · have hck : ("children" : String) ≠ k := fun hh => h1 hh.symm
        simp [trimFields, lookupField, hck, h1, ih]
    · simp only [trimFields]
      rw [if_neg h2]
      by_cases h1 : k1 = k
      · subst h1
        simp [lookupField, h2]
      · simp [lookupField, h1, ih]

theorem trimList_eq_map (cs : List Json) (c mx : Nat) :
    trimList cs c mx = cs.map (fun x => trim_depth x (c + 1) mx) := by
  induction cs with
  | nil => rfl
  | cons x cs ih => simp [trimList, ih]

/-- C7: with only `max_depth` set, `max_depth = 0` removes the `children`
field from every returned top-level node; `max_depth = 1` maps each node
through `trim_depth _ 0 1`, which keeps every field of the node
(non-`children` fields unchanged), keeps its immediate children (same
count), and removes the `children` field of each of them. -/
theorem tree_max_depth_pruning (items : List Json) (fs : List (String × Json))
    (cs : List Json) (k : String) (hk : k ≠ "children")
    (hcs : lookupField fs "children" = some (.arr cs)) :
    (∀ n ∈ (items.filter (fun node => treeNodeMatches node (qDepth 0))).map
        (fun node => trim_depth node 0 0),
      hasField n "children" = false) ∧
    filter_tree (.arr items) (qDepth 0)
      = .arr ((items.filter (fun node => treeNodeMatches node (qDepth 0))).map
          (fun node => trim_depth node 0 0)) ∧
    List.filter (fun node => treeNodeMatches node (qDepth 0)) items = items ∧
    filter_tree (.arr items) (qDepth 1)
      = .arr (items.map (fun node => trim_depth node 0 1)) ∧
    jGet (trim_depth (.obj fs) 0 1) k = lookupField fs k ∧
    jGet (trim_depth (.obj fs) 0 1) "children"
      = some (.arr (cs.map (fun c => trim_depth c 1 1))) ∧
    (∀ c ∈ cs.map (fun c => trim_depth c 1 1), hasField c "children" = false) ∧
    (cs.map (fun c => trim_depth c 1 1)).length = cs.length := by
  have hfid : ∀ m : Nat, List.filter (fun node => treeNodeMatches node (qDepth m)) items
      = items := by
    intro m
    apply List.filter_eq_self.mpr
    intro a _
    rw [treeNodeMatches_qDepth]
  have hfilters : ∀ m : Nat, filter_tree (.arr items) (qDepth m)
      = .arr ((items.filter (fun node => treeNodeMatches node (qDepth m))).map
          (fun node => trim_depth node 0 m)) := fun _ => rfl
  have h01 : ¬ (1 : Nat) ≤ 0 := by omega
  refine ⟨?_, hfilters 0, hfid 0, ?_, ?_, ?_, ?_, ?_⟩
  · intro n hn
    rw [List.mem_map] at hn
    obtain ⟨x, -, rfl⟩ := hn
    exact hasField_trim_depth_limit x 0 0 (Nat.le_refl 0)
  · rw [hfilters 1, hfid 1]
  · simp only [trim_depth, if_neg h01, jGet]
    rw [lookupField_trimFields]
    simp [hk]
  · simp only [trim_depth, if_neg h01, jGet]
    rw [lookupField_trimFields, hcs]
    simp [trimChildrenArr, trimList_eq_map]
  · intro c hc
    rw [List.mem_map] at hc
    obtain ⟨x, -, rfl⟩ := hc
    exact hasField_trim_depth_limit x 1 1 (Nat.le_refl 1)
  · simp

/-- Concrete nodes for the C7 witness. -/
def c7Child : Json :=
  .obj [("name", .str "X"), ("class_name", .str "Part"), ("path", .str "game.A.X"),
        ("children", .arr [])]

def c7Fields : List (String × Json) :=
  [("name", .str "A"), ("class_name", .str "Folder"), ("path", .str "game.A"),
   ("children", .arr [c7Child])]

theorem tree_max_depth_pruning_witness :
    (("name" : String) ≠ "children") ∧
    lookupField c7Fields "children" = some (.arr [c7Child]) ∧
    (filter_tree (.arr [.obj c7Fields]) (qDepth 0)
       = .arr (([Json.obj c7Fields].filter
           (fun node => treeNodeMatches node (qDepth 0))).map
             (fun node => trim_depth node 0 0)) ∧
     jGet (trim_depth (.obj c7Fields) 0 1) "name" = lookupField c7Fields "name" ∧
     jGet (trim_depth (.obj c7Fields) 0 1) "children"
       = some (.arr ([c7Child].map (fun c => trim_depth c 1 1)))) :=
  ⟨by decide, rfl,
   (tree_max_depth_pruning [.obj c7Fields] c7Fields [c7Child] "name" (by decide) rfl).2.1,
   (tree_max_depth_pruning [.obj c7Fields] c7Fields [c7Child] "name" (by decide) rfl).2.2.2.2.1,
   (tree_max_depth_pruning [.obj c7Fields] c7Fields [c7Child] "name" (by decide) rfl).2.2.2.2.2.1⟩

-- ── C8 support ───────────────────────────────────────────────────────────

/-- The push step of the string-constants loop (scanner.rs:368-377). -/
def scStep (noise svc : List String) (acc : List String) (run : List Char) : List String :=
  if !noise.contains (String.mk run) && !svc.contains (String.mk run) &&
     !acc.contains (String.mk run) && acc.length < 50
  then acc ++ [String.mk run] else acc

theorem scStep_spec (noise svc : List String) (acc : List String) (run : List Char)
    (h1 : acc.length ≤ 50) (h2 : acc.Nodup) :
    (scStep noise svc acc run).length ≤ 50 ∧ (scStep noise svc acc run).Nodup ∧
    ∀ v ∈ scStep noise svc acc run,
      v ∈ acc ∨ (v = String.mk run ∧ v ∉ noise ∧ v ∉ svc) := by
  unfold scStep
  split
  case isTrue hg =>
    simp only [Bool.and_eq_true, Bool.not_eq_true', List.contains, List.elem_eq_mem,
      decide_eq_false_iff_not, decide_eq_true_eq] at hg
    obtain ⟨⟨⟨hn, hs⟩, hc⟩, hl⟩ := hg
    refine ⟨?_, ?_, ?_⟩
    · simp only [List.length_append, List.length_singleton]
      omega
    · exact List.Nodup.append h2 (List.nodup_singleton _)
        (by intro a ha hb; rw [List.mem_singleton] at hb; subst hb; exact hc ha)
    · intro v hv
      rw [List.mem_append, List.mem_singleton] at hv
      rcases hv with hv | hv
      · exact Or.inl hv
      · exact Or.inr ⟨hv, hv ▸ hn, hv ▸ hs⟩
  case isFalse =>
    exact ⟨h1, h2, fun v hv => Or.inl hv⟩

theorem scFold_invariant (noise svc : List String) (cands : List (List Char)) :
    ∀ (acc : List String), acc.length ≤ 50 → acc.Nodup →
      ((cands.foldl (scStep noise svc) acc).length ≤ 50 ∧
       (cands.foldl (scStep noise svc) acc).Nodup ∧
       ∀ v ∈ cands.foldl (scStep noise svc) acc,
         v ∈ acc ∨ (v ∉ noise ∧ v ∉ svc ∧ ∃ run ∈ cands, v = String.mk run)) := by
  induction cands with
  | nil => exact fun acc h1 h2 => ⟨h1, h2, fun v hv => Or.inl hv⟩
  | cons run cands ih =>
    intro acc h1 h2
    simp only [List.foldl_cons]
    obtain ⟨s1, s2, s3⟩ := scStep_spec noise svc acc run h1 h2
    obtain ⟨f1, f2, f3⟩ := ih (scStep noise svc acc run) s1 s2
    refine ⟨f1, f2, ?_⟩
    intro v hv
    rcases f3 v hv with hv' | ⟨hn, hs, r, hr, hvr⟩
    · rcases s3 v hv' with hv'' | ⟨hvr, hn, hs⟩
      · exact Or.inl hv''
      · exact Or.inr ⟨hn, hs, run, List.mem_cons_self _ _, hvr⟩
    · exact Or.inr ⟨hn, hs, r, List.mem_cons_of_mem _ hr, hvr⟩

theorem tryStringLit_bounds {s run : List Char} {k : Nat}
    (h : tryStringLit s = some (run, k)) : 2 ≤ run.length ∧ run.length ≤ 60 := by
  cases s with
  | nil => simp [tryStringLit] at h
  | cons c r =>
    simp only [tryStringLit] at h
    split at h
    · split at h
      · rename_i hlen
        split at h
        · split at h
          · rw [Option.some.injEq] at h
            injection h with hr hk
            subst hr
            simp only [Bool.and_eq_true, decide_eq_true_eq] at hlen
            exact hlen
          · exact absurd h (by simp)
        · exact absurd h (by simp)
      · exact absurd h (by simp)
    · exact absurd h (by simp)

theorem scanAllAux_post {α : Type} (att : List Char → Option (α × Nat)) (P : α → Prop)
    (hatt : ∀ s a k, att s = some (a, k) → P a) :
    ∀ (fuel : Nat) (s : List Char), ∀ a ∈ scanAllAux att fuel s, P a := by
  intro fuel
  induction fuel with
  | zero => intro s a ha; simp [scanAllAux] at ha
  | succ n ih =>
    intro s a ha
    cases s with
    | nil => simp [scanAllAux] at ha
    | cons c r =>
      simp only [scanAllAux] at ha
      cases hm : att (c :: r) with
      | some p =>
        obtain ⟨b, k⟩ := p
        rw [hm] at ha
        rw [List.mem_cons] at ha
        rcases ha with rfl | ha
        · exact hatt (c :: r) a k hm
        · exact ih _ a ha
      | none =>
        rw [hm] at ha
        exact ih _ a ha

theorem scanAll_stringLit_bounds (s : List Char) :
    ∀ run ∈ scanAll tryStringLit s, 2 ≤ run.length ∧ run.length ≤ 60 :=
  scanAllAux_post tryStringLit _ (fun _ _ _ h => tryStringLit_bounds h) s.length s

theorem generate_outline_sc (source : String) :
    (generate_outline source).string_constants
      = (scanAll tryStringLit source.data).foldl
          (scStep noiseList (generate_outline source).services) [] := rfl

/-- C8: for every source text, `string_constants` holds at most 50
entries, no duplicates, no denylist member, no extracted service name,
and only values captured by the quoted-literal scanner, whose lengths are
2 to 60. -/
theorem string_constants_bounded_clean (source : String) :
    (generate_outline source).string_constants.length ≤ 50 ∧
    (generate_outline source).string_constants.Nodup ∧
    ∀ v ∈ (generate_outline source).string_constants,
      v ∉ noiseList ∧ v ∉ (generate_outline source).services ∧
      ∃ run ∈ scanAll tryStringLit source.data,
        v = String.mk run ∧ 2 ≤ v.length ∧ v.length ≤ 60 := by
  have hsc := generate_outline_sc source
  obtain ⟨f1, f2, f3⟩ := scFold_invariant noiseList (generate_outline source).services
    (scanAll tryStringLit source.data) [] (by simp) List.nodup_nil
  refine ⟨by rw [hsc]; exact f1, by rw [hsc]; exact f2, ?_⟩
  intro v hv
  rw [hsc] at hv
  rcases f3 v hv with hmem | ⟨hn, hs, run, hr, hvr⟩
  · simp at hmem
  · obtain ⟨b1, b2⟩ := scanAll_stringLit_bounds source.data run hr
    refine ⟨hn, hs, run, hr, hvr, ?_, ?_⟩
    · rw [hvr, String.length_mk]
      exact b1
    · rw [hvr, String.length_mk]
      exact b2

/-- The concrete source text of the C8 witness. -/
def c8Src : String := "local greeting = \"hello\"\nprint(greeting)\n"

theorem string_constants_bounded_clean_witness :
    ("hello" ∈ (generate_outline c8Src).string_constants) ∧
    ("hello" ∉ noiseList ∧ "hello" ∉ (generate_outline c8Src).services ∧
     ∃ run ∈ scanAll tryStringLit c8Src.data,
       "hello" = String.mk run ∧ 2 ≤ ("hello" : String).length ∧
         ("hello" : String).length ≤ 60) :=
  ⟨by decide, (string_constants_bounded_clean c8Src).2.2 "hello" (by decide)⟩

/-- C1: the tree hash is invariant under permuting the order of top-level
nodes and of any node's children, and it equals the lowercase-hex SHA-256
digest of the lexicographically sorted records
`"<class_name>:<name>:<path>"` of all object nodes with non-empty path,
each followed by a newline. -/
theorem tree_hash_order_independent (t t' : Json) (h : TreePerm t t') :
    compute_tree_hash t = compute_tree_hash t' ∧
    compute_tree_hash t = spec_tree_hash t := by
  constructor
  · simp only [compute_tree_hash]
    rw [mergeSort_congr_of_perm (collect_perm_of_treePerm h)]
  · simp only [compute_tree_hash, spec_tree_hash]
    rw [collect_eq_specRecords]

/-- Concrete trees for the C1 witness: the same three-node tree with the
top level and one node's children each listed in both orders. -/
def c1ChildX : Json :=
  .obj [("name", .str "X"), ("class_name", .str "Part"), ("path", .str "game.A.X")]

def c1ChildY : Json :=
  .obj [("name", .str "Y"), ("class_name", .str "Part"), ("path", .str "game.A.Y")]

def c1NodeA : Json :=
  .obj [("name", .str "A"), ("class_name", .str "Folder"), ("path", .str "game.A"),
        ("children", .arr [c1ChildX, c1ChildY])]

def c1NodeA2 : Json :=
  .obj [("name", .str "A"), ("class_name", .str "Folder"), ("path", .str "game.A"),
        ("children", .arr [c1ChildY, c1ChildX])]

def c1NodeB : Json :=
  .obj [("name", .str "B"), ("class_name", .str "Model"), ("path", .str "game.B")]

def c1TreeA : Json := .arr [c1NodeA, c1NodeB]

def c1TreeB : Json := .arr [c1NodeB, c1NodeA2]

theorem c1TreePerm : TreePerm c1TreeA c1TreeB := by
  apply TreePerm.arr (List.Perm.swap c1NodeB c1NodeA [])
  refine List.Forall₂.cons (treePerm_refl c1NodeB) (List.Forall₂.cons ?_ List.Forall₂.nil)
  refine TreePerm.obj ?_ ?_
  · rfl
  show List.Forall₂ TreePerm
    [.str "A", .str "Folder", .str "game.A", .arr [c1ChildX, c1ChildY]]
    [.str "A", .str "Folder", .str "game.A", .arr [c1ChildY, c1ChildX]]
  refine .cons (treePerm_refl _) (.cons (treePerm_refl _)
    (.cons (treePerm_refl _) (.cons ?_ .nil)))
  apply TreePerm.arr (List.Perm.swap c1ChildY c1ChildX [])
  exact .cons (treePerm_refl _) (.cons (treePerm_refl _) .nil)

theorem tree_hash_order_independent_witness :
    TreePerm c1TreeA c1TreeB ∧
    (compute_tree_hash c1TreeA = compute_tree_hash c1TreeB ∧
     compute_tree_hash c1TreeA = spec_tree_hash c1TreeA) :=
  ⟨c1TreePerm, tree_hash_order_independent c1TreeA c1TreeB c1TreePerm⟩
